import Mathlib

/-!
Verification of the chunked-upload ingestion core of the `smbc` video
platform, shallowly embedded from the TypeScript source.

Embedded components:
* `UploadSessionModel.updateChunkUploaded` and its serialized fallback
  (`src/models/UploadSession.ts`): chunk-commit bookkeeping over one
  session row plus the per-session Redis chunk set.
* `CacheService` (`src/services/cacheService.ts`): the Redis set
  operations, including their error-swallowing behaviour (every method
  returns a benign default when the client is not connected).
* `FileAssemblyService.assembleFile`
  (`src/services/fileAssemblyService.ts`): validation, the concatenation
  loop with its per-chunk unlink, video-row creation and the
  mark-failed catch handler.
* `QueueService` (`src/services/queueService.ts`): which queues each
  consumer function subscribes, and the retry/DLQ republish decision on
  consumer failure.
* the `/stream/:filename` endpoint (server entry file): byte-range
  responses.
* `UploadController.uploadChunk` (`src/controllers/uploadController.ts`):
  the handler-side validation with JavaScript `parseInt` semantics.

Modelling conventions: byte strings are `List Nat`; the blob store for a
session is a function `Nat → Option (List Nat)` from chunk index to chunk
bytes; the single session row under discussion is an `Option Session`
(`none` = row absent); the Redis set holding decimal chunk indices is a
`Finset Nat` (the stored strings are the decimal images of the numeric
indices, and the model keeps the parsed numbers); wall-clock columns
(`updated_at`, TTLs) are not modelled. `member` retrieval from Redis is
order-unspecified in reality and the source immediately re-sorts, so the
model returns the sorted enumeration and still applies the source's sort.
-/

/-- Session status column: "pending" | "uploading" | "completed" | "failed". -/
inductive Status where
  | pending
  | uploading
  | completed
  | failed
deriving DecidableEq, Repr

/-- One `upload_sessions` row (Date columns and the opaque metadata map
are not modelled; they are never read by the operations under proof). -/
structure Session where
  id : String
  user_id : String
  filename : String
  original_filename : String
  file_size : Nat
  chunk_size : Nat
  total_chunks : Nat
  uploaded_chunks : List Nat
  status : Status
deriving DecidableEq, Repr

/-- State of the Redis key `upload_chunks:{id}` for the session under
discussion, together with the client connection flag that gates every
`CacheService` method. An absent key and an empty set are
indistinguishable in Redis, so a bare `Finset` suffices. -/
structure RedisState where
  connected : Bool
  store : Finset Nat
deriving DecidableEq

/-- `CacheService.sadd`: adds the values when connected; on a
disconnected client (or any Redis error, which the method catches) it
returns 0 and changes nothing. The numeric return value is unused by the
callers under proof, so only the state effect is kept. -/
def CacheService.sadd (r : RedisState) (values : List Nat) : RedisState :=
  if r.connected then { r with store := r.store ∪ values.toFinset } else r

/-- `CacheService.scard`: set cardinality, or 0 when disconnected/erroring. -/
def CacheService.scard (r : RedisState) : Nat :=
  if r.connected then r.store.card else 0

/-- Sorted enumeration of a finite set of chunk indices (the
order-canonical representative of SMEMBERS output). -/
def sortedMembers (g : Finset Nat) : List Nat :=
  Quot.liftOn g.val (fun l => List.insertionSort (· ≤ ·) l)
    (fun _ _ h =>
      List.eq_of_perm_of_sorted
        ((List.perm_insertionSort _ _).trans
          (h.trans (List.perm_insertionSort _ _).symm))
        (List.sorted_insertionSort _ _)
        (List.sorted_insertionSort _ _))

/-- `CacheService.smembers`: the members, or `[]` when
disconnected/erroring. Redis returns them in unspecified order; the model
returns the sorted enumeration (the unique caller re-sorts anyway). -/
def CacheService.smembers (r : RedisState) : List Nat :=
  if r.connected then sortedMembers r.store else []

/-- `CacheService.del`: removes the key (no-op when disconnected/erroring). -/
def CacheService.del (r : RedisState) : RedisState :=
  if r.connected then { r with store := ∅ } else r

/-- `UploadSessionModel.initializeRedisChunks`: seeds the Redis set from
the persisted `uploaded_chunks` column (skipped when that list is empty);
its own errors are caught and ignored. `expire` has no modelled effect. -/
def initializeRedisChunks (r : RedisState) (existingChunks : List Nat) : RedisState :=
  if existingChunks.length = 0 then r else CacheService.sadd r existingChunks

/-- `UploadSessionModel.updateChunkUploaded` (the Redis path of
record_chunk). Returns the returned session image (which is also the
new row contents) and the new Redis state. The catch-all fallback in the
source can only be reached by a thrown exception; since every
`CacheService` method swallows its own errors, no Redis failure throws,
and the DB is modelled as available, so the path below is total. -/
def updateChunkUploaded (db : Option Session) (r : RedisState) (chunkIndex : Nat) :
    Option Session × RedisState :=
  match db with
  | none => (none, r)
  | some session =>
    let r1 := initializeRedisChunks r session.uploaded_chunks
    let r2 := CacheService.sadd r1 [chunkIndex]
    let uploadedCount := CacheService.scard r2
    let isCompleted := session.total_chunks ≤ uploadedCount
    let status := if isCompleted then Status.completed else Status.uploading
    let uploadedChunks := List.insertionSort (· ≤ ·) (CacheService.smembers r2)
    let updated := { session with uploaded_chunks := uploadedChunks, status := status }
    let r3 := if isCompleted then CacheService.del r2 else r2
    (some updated, r3)

/-- `UploadSessionModel.updateChunkUploadedFallback`: the C2-serialised
path (row lock, in-memory set computation, write-back). -/
def updateChunkUploadedFallback (db : Option Session) (chunkIndex : Nat) :
    Option Session :=
  match db with
  | none => none
  | some session =>
    let uploadedChunks :=
      if session.uploaded_chunks.contains chunkIndex then session.uploaded_chunks
      else List.insertionSort (· ≤ ·) (session.uploaded_chunks ++ [chunkIndex])
    let status :=
      if uploadedChunks.length = session.total_chunks then Status.completed
      else Status.uploading
    some { session with uploaded_chunks := uploadedChunks, status := status }

/-- `UploadSessionModel.updateStatus`: unconditional status overwrite. -/
def updateStatus (db : Option Session) (status : Status) : Option Session :=
  db.map (fun s => { s with status := status })

/-- A sequence of `CommitChunk` deliveries processed by the Redis path. -/
def deliverAll (st : Option Session × RedisState) (l : List Nat) :
    Option Session × RedisState :=
  l.foldl (fun st i => updateChunkUploaded st.1 st.2 i) st

/-- A sequence of `CommitChunk` deliveries processed by the fallback path. -/
def deliverAllFallback (db : Option Session) (l : List Nat) : Option Session :=
  l.foldl updateChunkUploadedFallback db

/-- Closed form of the state after at least one Redis-path delivery:
the row holds the sorted enumeration of `g`, the status is recomputed
from `g`'s size, and the Redis key holds `g` unless completion deleted it. -/
def afterState (s : Session) (r : RedisState) (g : Finset Nat) :
    Option Session × RedisState :=
  (some { s with
      uploaded_chunks := g.sort (· ≤ ·),
      status := if s.total_chunks ≤ g.card then Status.completed else Status.uploading },
   { r with store := if s.total_chunks ≤ g.card then ∅ else g })

/-- Closed form of the row after at least one fallback-path delivery of
the index set `g`: the list is untouched when nothing new arrived,
otherwise it is the sorted enumeration of the union. -/
def afterFallback (s : Session) (g : Finset Nat) : Option Session :=
  some { s with
    uploaded_chunks :=
      if g ⊆ s.uploaded_chunks.toFinset then s.uploaded_chunks
      else (s.uploaded_chunks.toFinset ∪ g).sort (· ≤ ·),
    status :=
      if (s.uploaded_chunks.toFinset ∪ g).card = s.total_chunks then Status.completed
      else Status.uploading }

/-- `fs.unlink` of the chunk blob `chunks/{session_id}_chunk_{i}` in the
per-session view of the blob store. -/
def unlinkChunk (store : Nat → Option (List Nat)) (i : Nat) :
    Nat → Option (List Nat) :=
  fun j => if j = i then none else store j

/-- The concatenation loop of `FileAssemblyService.assembleFile`:
`for (i = 0; i < total_chunks; i++) { read chunk i; write; unlink i }`.
Returns the store after the loop, the bytes written to the stream, and
the index at which a read failed (the source then destroys the stream
and throws). Chunks already processed stay deleted on failure. -/
def assembleChunksLoop :
    (Nat → Option (List Nat)) → List Nat → List Nat →
    (Nat → Option (List Nat)) × List Nat × Option Nat
  | store, [], acc => (store, acc, none)
  | store, i :: rest, acc =>
    match store i with
    | none => (store, acc, some i)
    | some bytes => assembleChunksLoop (unlinkChunk store i) rest (acc ++ bytes)

/-- Result of one `assembleFile` execution: the session row afterwards,
the chunk blobs afterwards, the bytes durably written to
`uploads/{filename}` (`none` when the stream was destroyed or never
finished), and whether the `videos` row was created (step 5, reached only
on loop success; the video-row fields, `ProcessVideo` publish and cache
invalidation carry no session state and are elided). -/
structure AssemblyOutcome where
  sessionAfter : Option Session
  chunksAfter : Nat → Option (List Nat)
  output : Option (List Nat)
  videoCreated : Bool

/-- `FileAssemblyService.assembleFile`. Every thrown error lands in the
catch block, which marks the session `failed` via `updateStatus` and
rethrows; success deletes the session row. -/
def assembleFile (db : Option Session) (store : Nat → Option (List Nat)) :
    AssemblyOutcome :=
  match db with
  | none =>
    { sessionAfter := updateStatus none Status.failed
      chunksAfter := store
      output := none
      videoCreated := false }
  | some session =>
    if session.status = Status.completed then
      if session.uploaded_chunks.length = session.total_chunks then
        match assembleChunksLoop store (List.range session.total_chunks) [] with
        | (store1, _, some _) =>
          { sessionAfter := updateStatus (some session) Status.failed
            chunksAfter := store1
            output := none
            videoCreated := false }
        | (store1, bytes, none) =>
          { sessionAfter := none
            chunksAfter := store1
            output := some bytes
            videoCreated := true }
      else
        { sessionAfter := updateStatus (some session) Status.failed
          chunksAfter := store
          output := none
          videoCreated := false }
    else
      { sessionAfter := updateStatus (some session) Status.failed
        chunksAfter := store
        output := none
        videoCreated := false }

/-- The three work-bus pipelines of `QueueService`. -/
inductive Pipeline where
  | chunk
  | assembly
  | video
deriving DecidableEq, Repr

/-- Main queue name per pipeline (string literals from `setupQueues`). -/
def mainQueue : Pipeline → String
  | Pipeline.chunk => "chunk_processing"
  | Pipeline.assembly => "file_assembly"
  | Pipeline.video => "video_processing"

/-- Retry queue name per pipeline. -/
def retryQueue : Pipeline → String
  | Pipeline.chunk => "chunk_processing_retry"
  | Pipeline.assembly => "file_assembly_retry"
  | Pipeline.video => "video_processing_retry"

/-- Dead-letter queue name per pipeline. -/
def dlqQueue : Pipeline → String
  | Pipeline.chunk => "chunk_processing_dlq"
  | Pipeline.assembly => "file_assembly_dlq"
  | Pipeline.video => "video_processing_dlq"

/-- Where a failed message is republished and with which retryCount
header. All three consumer catch blocks share this shape: a message whose
header count is below 3 goes to the pipeline's retry queue with the count
incremented; otherwise the original content goes to the DLQ. -/
def handleConsumeFailure (p : Pipeline) (retryCount : Nat) : String × Nat :=
  if retryCount < 3 then (retryQueue p, retryCount + 1)
  else (dlqQueue p, retryCount)

/-- `QueueService.consumeVideoJobs processor`: subscribes the processor to
the main queue, then calls `consumeRetryJobs processor` (subscribing the
SAME processor to `video_processing_retry`) and `monitorDeadLetterQueue`
(subscribing an ack-and-log handler to the DLQ). -/
def consumeVideoJobs (processor : String) : List (String × String) :=
  [("video_processing", processor),
   ("video_processing_retry", processor),
   ("video_processing_dlq", "ack_and_log")]

/-- `QueueService.consumeChunkJobs processor`: subscribes the processor to
`chunk_processing` only; no other subscription is made. -/
def consumeChunkJobs (processor : String) : List (String × String) :=
  [("chunk_processing", processor)]

/-- `QueueService.consumeFileAssemblyJobs processor`: subscribes the
processor to `file_assembly` only; no other subscription is made. -/
def consumeFileAssemblyJobs (processor : String) : List (String × String) :=
  [("file_assembly", processor)]

/-- Every queue subscription the service can create, over the three
consumer entry points (these are the only `channel.consume` calls in the
codebase). -/
def allConsumerRegistrations (videoProc chunkProc assemblyProc : String) :
    List (String × String) :=
  consumeVideoJobs videoProc ++ consumeChunkJobs chunkProc ++
    consumeFileAssemblyJobs assemblyProc

/-- Response of the `/stream/:filename` endpoint. `contentRange` models
the `Content-Range: bytes S-E/L` header as the triple (S, E, L);
`contentLength` is an `Int` because the source computes `end - start + 1`
in JavaScript number arithmetic, which can be negative. -/
structure StreamResponse where
  status : Nat
  contentRange : Option (Int × Int × Int)
  contentLength : Int
  body : List Nat
deriving DecidableEq, Repr

/-- The `end` offset the handler passes to `createReadStream`:
`parts[1] ? parseInt(parts[1], 10) : fileSize - 1`, a JavaScript number
(`Int`, since `fileSize - 1` is `-1` on an empty file). -/
def rangeEndPos (fileSize : Nat) (endOpt : Option Nat) : Int :=
  match endOpt with
  | some e => (e : Int)
  | none => (fileSize : Int) - 1

/-- The `/stream/:filename` handler. `file` is the stored blob (`none` =
404). `range` is the parsed Range header: `none` when absent, otherwise
the numeric start and optional end from `bytes=S-E` / `bytes=S-`. The
handler calls `createReadStream(path, \x7bstart, end\x7d)` BEFORE
`res.writeHead(206, head)`; when `start > end` Node's `ReadStream`
constructor throws `ERR_OUT_OF_RANGE` synchronously, Express catches the
throw and answers 500 — no 206 head is ever written (that response's
headers/body are not modelled beyond the status). Otherwise the 206 head
is written unconditionally (start past EOF is NOT validated; the stream
then just ends early) and the body is the bytes the stream delivers,
inclusive of both bounds and clipped at EOF. -/
def streamEndpoint (file : Option (List Nat)) (range : Option (Nat × Option Nat)) :
    StreamResponse :=
  match file with
  | none => { status := 404, contentRange := none, contentLength := 0, body := [] }
  | some bytes =>
    let fileSize := bytes.length
    match range with
    | none =>
      { status := 200
        contentRange := none
        contentLength := fileSize
        body := bytes }
    | some (start, endOpt) =>
      let endPos : Int := rangeEndPos fileSize endOpt
      if (start : Int) > endPos then
        { status := 500, contentRange := none, contentLength := 0, body := [] }
      else
        { status := 206
          contentRange := some ((start : Int), endPos, (fileSize : Int))
          contentLength := endPos - (start : Int) + 1
          body := (bytes.drop start).take ((endPos + 1 - (start : Int)).toNat) }

/-- A JavaScript number as produced by `parseInt`: either NaN or an
integer value. -/
inductive JsNum where
  | nan
  | int (value : Int)
deriving DecidableEq, Repr

/-- JavaScript `<` against an integer: every comparison with NaN is false. -/
def JsNum.lt : JsNum → Int → Bool
  | JsNum.nan, _ => false
  | JsNum.int a, b => a < b

/-- JavaScript `>=` against an integer: every comparison with NaN is false. -/
def JsNum.ge : JsNum → Int → Bool
  | JsNum.nan, _ => false
  | JsNum.int a, b => b ≤ a

/-- Value of a decimal digit run, most significant first. -/
def digitsToNat (ds : List Char) : Nat :=
  ds.foldl (fun acc c => acc * 10 + (c.toNat - 48)) 0

/-- JavaScript `parseInt(s)` (radix 10): optional sign, then the longest
leading digit run; NaN when that run is empty. (Leading-whitespace
trimming is not modelled; none of the proved statements involve it.) -/
def parseIntJs (s : String) : JsNum :=
  let chars := s.toList
  let signAndRest : Int × List Char :=
    match chars with
    | '-' :: rest => (-1, rest)
    | '+' :: rest => (1, rest)
    | rest => (1, rest)
  let ds := signAndRest.2.takeWhile Char.isDigit
  if ds.isEmpty then JsNum.nan
  else JsNum.int (signAndRest.1 * (digitsToNat ds : Int))

/-- Outcome of `UploadController.uploadChunk` from the point where the
session row has been loaded (the multipart/temp-file handling and the
queue-publish failure branch carry no session state and are elided). -/
inductive ChunkUploadOutcome where
  | notFound
  | forbidden
  | badRequest (message : String)
  | queued (chunkIndex : JsNum)
deriving DecidableEq, Repr

/-- `UploadController.uploadChunk` validation chain: 404 on a missing
session, 403 on owner mismatch, 400 on a terminal session, then
`chunkIndexNum = parseInt(chunkIndex)` guarded by
`chunkIndexNum < 0 || chunkIndexNum >= session.total_chunks`; a value
passing both guards is put into the `CommitChunk` job that is published
to `chunk_processing`. -/
def uploadChunk (db : Option Session) (userId : String) (chunkIndex : String) :
    ChunkUploadOutcome :=
  match db with
  | none => ChunkUploadOutcome.notFound
  | some session =>
    if session.user_id ≠ userId then ChunkUploadOutcome.forbidden
    else if session.status = Status.completed then
      ChunkUploadOutcome.badRequest "Upload session already completed"
    else if session.status = Status.failed then
      ChunkUploadOutcome.badRequest "Upload session failed"
    else
      let chunkIndexNum := parseIntJs chunkIndex
      if chunkIndexNum.lt 0 || chunkIndexNum.ge (session.total_chunks : Int) then
        ChunkUploadOutcome.badRequest "Invalid chunk index"
      else ChunkUploadOutcome.queued chunkIndexNum

/-- A reachable mid-upload session used as concrete input:
3 chunks of 100 bytes, chunk 0 already committed. -/
def sessionC : Session where
  id := "s"
  user_id := "u"
  filename := "f.mp4"
  original_filename := "o.mp4"
  file_size := 300
  chunk_size := 100
  total_chunks := 3
  uploaded_chunks := [0]
  status := Status.uploading

/-- A connected Redis client with an empty chunk set for the session. -/
def redisUp : RedisState where
  connected := true
  store := (∅ : Finset Nat)

/-- A disconnected Redis client (C3 unavailable). -/
def redisDown : RedisState where
  connected := false
  store := (∅ : Finset Nat)

/-- `sessionC` after its full set committed: state completed,
received = [0, total_chunks). -/
def sessionDone : Session :=
  { sessionC with uploaded_chunks := [0, 1, 2], status := Status.completed }

/-- `sessionC` marked failed with its partial set. -/
def sessionFailed : Session :=
  { sessionC with status := Status.failed }

/-- A chunk store for `sessionDone` in which chunk 1 is missing (lost or
corrupted on disk) while chunks 0 and 2 are present. -/
def storeMissing1 : Nat → Option (List Nat) :=
  fun i => if i = 1 then none else some [i]

theorem initializeRedisChunks_store (r : RedisState) (l : List Nat)
    (h : r.connected = true) :
    initializeRedisChunks r l = { r with store := r.store ∪ l.toFinset } := by
  unfold initializeRedisChunks CacheService.sadd
  by_cases hl : l.length = 0
  · rw [if_pos hl, List.length_eq_zero.mp hl]
    cases r
    simp
  · rw [if_neg hl, if_pos h]

theorem sortedMembers_eq_sort (g : Finset Nat) :
    sortedMembers g = g.sort (· ≤ ·) := by
  rcases g with ⟨val, hnd⟩
  induction val using Quot.inductionOn with
  | h l =>
    have hperm : List.Perm (Finset.sort (· ≤ ·) (⟨Quot.mk _ l, hnd⟩ : Finset Nat)) l :=
      Multiset.coe_eq_coe.mp (Multiset.sort_eq _ _)
    exact List.eq_of_perm_of_sorted
      ((List.perm_insertionSort _ _).trans hperm.symm)
      (List.sorted_insertionSort _ _)
      (Finset.sort_sorted _ _)

theorem updateChunkUploaded_connected (s : Session) (r : RedisState) (i : Nat)
    (h : r.connected = true) :
    updateChunkUploaded (some s) r i =
      afterState s r (r.store ∪ s.uploaded_chunks.toFinset ∪ {i}) := by
  have h1 := initializeRedisChunks_store r s.uploaded_chunks h
  have hins : List.insertionSort (· ≤ ·)
      ((r.store ∪ s.uploaded_chunks.toFinset ∪ {i}).sort (· ≤ ·)) =
      (r.store ∪ s.uploaded_chunks.toFinset ∪ {i}).sort (· ≤ ·) :=
    List.Sorted.insertionSort_eq (Finset.sort_sorted _ _)
  simp only [Finset.union_assoc] at hins
  simp only [updateChunkUploaded, h1, CacheService.sadd, CacheService.scard,
    CacheService.smembers, CacheService.del, afterState, h, if_true,
    sortedMembers_eq_sort, List.toFinset_cons, List.toFinset_nil,
    insert_emptyc_eq, Finset.union_assoc, hins]
  by_cases hc :
      s.total_chunks ≤ (r.store ∪ (s.uploaded_chunks.toFinset ∪ {i})).card <;>
    simp [hc]

theorem afterState_step (s : Session) (r : RedisState) (g : Finset Nat) (j : Nat)
    (h : r.connected = true) :
    updateChunkUploaded (afterState s r g).1 (afterState s r g).2 j =
      afterState s r (g ∪ {j}) := by
  rw [show (afterState s r g).1 = some { s with
        uploaded_chunks := g.sort (· ≤ ·),
        status := if s.total_chunks ≤ g.card then Status.completed
          else Status.uploading } from rfl]
  rw [show (afterState s r g).2 = { r with
        store := if s.total_chunks ≤ g.card then ∅ else g } from rfl]
  rw [updateChunkUploaded_connected _ _ _ (by simpa using h)]
  have hsets : ({ r with store := if s.total_chunks ≤ g.card then ∅ else g }
        : RedisState).store ∪
      (List.toFinset (g.sort (· ≤ ·))) ∪ {j} = g ∪ {j} := by
    by_cases hc : s.total_chunks ≤ g.card <;>
      simp [hc, Finset.sort_toFinset, Finset.union_comm]
  rw [hsets]
  rfl

theorem deliverAll_afterState (s : Session) (r : RedisState) (g : Finset Nat)
    (l : List Nat) (h : r.connected = true) :
    deliverAll (afterState s r g) l = afterState s r (g ∪ l.toFinset) := by
  induction l generalizing g with
  | nil => simp [deliverAll]
  | cons j t ih =>
    have hstep := afterState_step s r g j h
    calc deliverAll (afterState s r g) (j :: t)
        = deliverAll (afterState s r (g ∪ {j})) t := by
          simp only [deliverAll, List.foldl_cons, hstep]
      _ = afterState s r (g ∪ {j} ∪ t.toFinset) := ih (g ∪ {j})
      _ = afterState s r (g ∪ (j :: t).toFinset) := by
          rw [List.toFinset_cons, Finset.insert_eq, Finset.union_assoc,
            Finset.union_comm {j} t.toFinset]

theorem deliverAll_closed (s : Session) (r : RedisState) (i : Nat) (t : List Nat)
    (h : r.connected = true) :
    deliverAll (some s, r) (i :: t) =
      afterState s r (r.store ∪ s.uploaded_chunks.toFinset ∪ (i :: t).toFinset) := by
  calc deliverAll (some s, r) (i :: t)
      = deliverAll (updateChunkUploaded (some s) r i) t := rfl
    _ = deliverAll (afterState s r (r.store ∪ s.uploaded_chunks.toFinset ∪ {i})) t := by
        rw [updateChunkUploaded_connected s r i h]
    _ = afterState s r (r.store ∪ s.uploaded_chunks.toFinset ∪ {i} ∪ t.toFinset) :=
        deliverAll_afterState s r _ t h
    _ = afterState s r (r.store ∪ s.uploaded_chunks.toFinset ∪ (i :: t).toFinset) := by
        rw [List.toFinset_cons, Finset.insert_eq, Finset.union_assoc]

theorem insertionSort_append_singleton (u : List Nat) (i : Nat)
    (hnd : u.Nodup) (hi : i ∉ u) :
    List.insertionSort (· ≤ ·) (u ++ [i]) = (u.toFinset ∪ {i}).sort (· ≤ ·) := by
  refine List.eq_of_perm_of_sorted ?_ (List.sorted_insertionSort _ _)
    (Finset.sort_sorted _ _)
  have hnd2 : (u ++ [i]).Nodup := by
    rw [List.nodup_append]
    exact ⟨hnd, List.nodup_singleton i, by simpa using hi⟩
  refine (List.perm_insertionSort _ _).trans ?_
  have hfin : (u ++ [i]).toFinset = u.toFinset ∪ {i} := by
    rw [List.toFinset_append]
    simp
  have := List.perm_of_nodup_nodup_toFinset_eq hnd2
    (Finset.sort_nodup (· ≤ ·) (u.toFinset ∪ {i}))
    (by rw [Finset.sort_toFinset, hfin])
  exact this

theorem updateChunkUploadedFallback_eq (s : Session) (i : Nat)
    (hnd : s.uploaded_chunks.Nodup) :
    updateChunkUploadedFallback (some s) i = afterFallback s {i} := by
  by_cases hmem : i ∈ s.uploaded_chunks
  · have hcontains : s.uploaded_chunks.contains i = true := by
      simpa using hmem
    have hsub : ({i} : Finset Nat) ⊆ s.uploaded_chunks.toFinset := by
      simpa using hmem
    have hunion : s.uploaded_chunks.toFinset ∪ {i} = s.uploaded_chunks.toFinset := by
      simpa [Finset.union_eq_left] using hsub
    have hcard : (s.uploaded_chunks.toFinset ∪ {i}).card = s.uploaded_chunks.length := by
      rw [hunion, List.toFinset_card_of_nodup hnd]
    simp only [updateChunkUploadedFallback, afterFallback, hcontains, if_true,
      if_pos hsub, hcard]
  · have hcontains : s.uploaded_chunks.contains i = false := by
      simpa using hmem
    have hsub : ¬ (({i} : Finset Nat) ⊆ s.uploaded_chunks.toFinset) := by
      simpa using hmem
    have hcard : (s.uploaded_chunks.toFinset ∪ {i}).card = s.uploaded_chunks.length + 1 := by
      rw [Finset.union_comm, ← Finset.insert_eq,
        Finset.card_insert_of_not_mem (by simpa using hmem),
        List.toFinset_card_of_nodup hnd]
    have hlen : (List.insertionSort (· ≤ ·) (s.uploaded_chunks ++ [i])).length
        = s.uploaded_chunks.length + 1 := by
      rw [List.length_insertionSort, List.length_append, List.length_singleton]
    simp only [updateChunkUploadedFallback, afterFallback, hcontains,
      Bool.false_eq_true, if_false, if_neg hsub,
      insertionSort_append_singleton s.uploaded_chunks i hnd hmem,
      Finset.length_sort, hcard, hlen]

theorem afterFallback_step (s : Session) (g : Finset Nat) (j : Nat)
    (hnd : s.uploaded_chunks.Nodup) :
    updateChunkUploadedFallback (afterFallback s g) j = afterFallback s (g ∪ {j}) := by
  by_cases hg : g ⊆ s.uploaded_chunks.toFinset
  · have hEg : s.uploaded_chunks.toFinset ∪ g = s.uploaded_chunks.toFinset :=
      Finset.union_eq_left.mpr hg
    have hE2 : s.uploaded_chunks.toFinset ∪ (g ∪ {j})
        = s.uploaded_chunks.toFinset ∪ {j} := by
      rw [← Finset.union_assoc, hEg]
    have hs1 : afterFallback s g = some { s with
        uploaded_chunks := s.uploaded_chunks,
        status := if s.uploaded_chunks.toFinset.card = s.total_chunks
          then Status.completed else Status.uploading } := by
      simp only [afterFallback, if_pos hg, hEg]
    rw [hs1, updateChunkUploadedFallback_eq _ j (by simpa using hnd)]
    have hiff : (({j} : Finset Nat) ⊆ s.uploaded_chunks.toFinset)
        ↔ ((g ∪ {j}) ⊆ s.uploaded_chunks.toFinset) :=
      ⟨fun hj => Finset.union_subset hg hj,
       fun hj => (Finset.subset_union_right).trans hj⟩
    simp only [afterFallback, hE2]
    rw [if_congr hiff rfl rfl]
  · have hs1 : afterFallback s g = some { s with
        uploaded_chunks := (s.uploaded_chunks.toFinset ∪ g).sort (· ≤ ·),
        status := if (s.uploaded_chunks.toFinset ∪ g).card = s.total_chunks
          then Status.completed else Status.uploading } := by
      simp only [afterFallback, if_neg hg]
    have hnd1 : ((s.uploaded_chunks.toFinset ∪ g).sort (· ≤ ·)).Nodup :=
      Finset.sort_nodup _ _
    rw [hs1, updateChunkUploadedFallback_eq _ j hnd1]
    have hfin : ((s.uploaded_chunks.toFinset ∪ g).sort (· ≤ ·)).toFinset
        = s.uploaded_chunks.toFinset ∪ g := Finset.sort_toFinset _ _
    have hnotsub : ¬ ((g ∪ {j}) ⊆ s.uploaded_chunks.toFinset) := by
      intro hsub
      exact hg (Finset.subset_union_left.trans hsub)
    have hassoc : s.uploaded_chunks.toFinset ∪ (g ∪ {j})
        = (s.uploaded_chunks.toFinset ∪ g) ∪ {j} :=
      (Finset.union_assoc _ _ _).symm
    by_cases hj : j ∈ s.uploaded_chunks.toFinset ∪ g
    · have habs : (s.uploaded_chunks.toFinset ∪ g) ∪ {j}
          = s.uploaded_chunks.toFinset ∪ g := by
        rw [Finset.union_comm _ {j}, ← Finset.insert_eq,
          Finset.insert_eq_self.mpr hj]
      simp only [afterFallback, hfin, hassoc, habs,
        if_pos (by simpa using hj : ({j} : Finset Nat) ⊆ s.uploaded_chunks.toFinset ∪ g),
        if_neg hnotsub]
    · simp only [afterFallback, hfin, hassoc,
        if_neg (by simpa using hj : ¬ (({j} : Finset Nat) ⊆ s.uploaded_chunks.toFinset ∪ g)),
        if_neg hnotsub]

theorem deliverAllFallback_afterFallback (s : Session) (g : Finset Nat)
    (l : List Nat) (hnd : s.uploaded_chunks.Nodup) :
    deliverAllFallback (afterFallback s g) l = afterFallback s (g ∪ l.toFinset) := by
  induction l generalizing g with
  | nil => simp [deliverAllFallback]
  | cons j t ih =>
    calc deliverAllFallback (afterFallback s g) (j :: t)
        = deliverAllFallback (afterFallback s (g ∪ {j})) t := by
          simp only [deliverAllFallback, List.foldl_cons, afterFallback_step s g j hnd]
      _ = afterFallback s (g ∪ {j} ∪ t.toFinset) := ih (g ∪ {j})
      _ = afterFallback s (g ∪ (j :: t).toFinset) := by
          rw [List.toFinset_cons, Finset.insert_eq, Finset.union_assoc,
            Finset.union_comm {j} t.toFinset]

theorem deliverAllFallback_closed (s : Session) (i : Nat) (t : List Nat)
    (hnd : s.uploaded_chunks.Nodup) :
    deliverAllFallback (some s) (i :: t) = afterFallback s ((i :: t).toFinset) := by
  calc deliverAllFallback (some s) (i :: t)
      = deliverAllFallback (updateChunkUploadedFallback (some s) i) t := rfl
    _ = deliverAllFallback (afterFallback s {i}) t := by
        rw [updateChunkUploadedFallback_eq s i hnd]
    _ = afterFallback s ({i} ∪ t.toFinset) :=
        deliverAllFallback_afterFallback s {i} t hnd
    _ = afterFallback s ((i :: t).toFinset) := by
        rw [List.toFinset_cons, Finset.insert_eq]

/-- C1. `record_chunk` (`UploadSessionModel.updateChunkUploaded`) is
idempotent on both paths: for every session row, connected Redis state,
and duplicate-free persisted chunk list, two delivery sequences carrying
the same SET of chunk indices — regardless of order and multiplicities —
produce the same final session image and Redis state on the chunk-index
path, and the same final session image on the serialised fallback path.
In particular (taking `l₂ = l₁ ++ [i]` with `i ∈ l₁`), re-delivering an
already-recorded `chunk_index` changes nothing and returns the current
session image. -/
theorem record_chunk_commit_set_semantics (s : Session) (r : RedisState)
    (l₁ l₂ : List Nat) (hconn : r.connected = true)
    (hnd : s.uploaded_chunks.Nodup) (hset : l₁.toFinset = l₂.toFinset) :
    deliverAll (some s, r) l₁ = deliverAll (some s, r) l₂ ∧
    deliverAllFallback (some s) l₁ = deliverAllFallback (some s) l₂ := by
  rcases l₁ with _ | ⟨i, t⟩
  · have h2 : l₂ = [] := by
      rw [← List.toFinset_eq_empty_iff]
      simpa using hset.symm
    subst h2
    exact ⟨rfl, rfl⟩
  · rcases l₂ with _ | ⟨j, u⟩
    · simp at hset
    · constructor
      · rw [deliverAll_closed s r i t hconn, deliverAll_closed s r j u hconn, hset]
      · rw [deliverAllFallback_closed s i t hnd,
          deliverAllFallback_closed s j u hnd, hset]

/-- Witness for C1 at a concrete input: session with `received = {0}`,
3 total chunks, deliveries `[1,1,2]` versus `[2,1]`. -/
theorem record_chunk_commit_set_semantics_witness :
    deliverAll (some sessionC, redisUp) [1, 1, 2]
        = deliverAll (some sessionC, redisUp) [2, 1] ∧
    deliverAllFallback (some sessionC) [1, 1, 2]
        = deliverAllFallback (some sessionC) [2, 1] :=
  record_chunk_commit_set_semantics sessionC redisUp [1, 1, 2] [2, 1]
    rfl (by decide) (by decide)

/-- C2. When C3/Redis is unavailable, `updateChunkUploaded` does NOT
restart with the serialised fallback: every `CacheService` method
swallows its own error (`if (!this.isConnected) return 0 / []`), so no
exception reaches the `catch (redisError)` that would invoke
`updateChunkUploadedFallback`. The Redis path then proceeds with
`scard = 0` and `smembers = []`, and persists an EMPTY `uploaded_chunks`,
shrinking the set `[0]` to `[]` instead of producing `[0, 1]`. The second
conjunct shows the fallback, had it been reached, computes the
specified result `received ∪ \x7bchunk_index\x7d`. -/
theorem updateChunkUploaded_redis_down_loses_chunks :
    (updateChunkUploaded (some sessionC) redisDown 1).1
        = some { sessionC with uploaded_chunks := [], status := Status.uploading } ∧
    updateChunkUploadedFallback (some sessionC) 1
        = some { sessionC with uploaded_chunks := [0, 1], status := Status.uploading } := by
  decide

/-- Rebuilding a session from its own `uploaded_chunks` and `status`
leaves it unchanged. -/
theorem session_update_self (s : Session) (u : List Nat) (st : Status)
    (hu : u = s.uploaded_chunks) (hst : st = s.status) :
    ({ s with uploaded_chunks := u, status := st } : Session) = s := by
  subst hu
  subst hst
  rfl

/-- C4 counterexample: `updateChunkUploaded` has NO terminal-state guard.
On a `failed` session with `received = [0]` (3 total chunks), delivering
chunk 1 mutates the received set to `[0, 1]` and resets the state to
`uploading`  — not a no-op returning the current image. -/
theorem updateChunkUploaded_failed_session_mutates :
    (updateChunkUploaded (some sessionFailed) redisUp 1).1
        = some { sessionFailed with uploaded_chunks := [0, 1], status := Status.uploading } ∧
    (updateChunkUploaded (some sessionFailed) redisUp 1).1 ≠ some sessionFailed := by
  decide

/-- C4 amended: the source has no `state ∈ \x7bcompleted, failed\x7d → no-op`
guard; what does hold is that on a COMPLETED session whose received set is
the full `[0, total_chunks)` (the only reachable completed shape), a
re-delivered in-range chunk index leaves every field of the row unchanged
and returns the current image, on both paths — the no-op is incidental
(the recomputed set and state coincide with the stored ones), and on
`failed` sessions record_chunk does mutate the row. -/
theorem record_chunk_completed_full_session_noop (s : Session) (r : RedisState)
    (i : Nat) (hconn : r.connected = true)
    (hstatus : s.status = Status.completed)
    (hfull : s.uploaded_chunks = (Finset.range s.total_chunks).sort (· ≤ ·))
    (hstore : r.store ⊆ Finset.range s.total_chunks)
    (hi : i < s.total_chunks) :
    (updateChunkUploaded (some s) r i).1 = some s ∧
    updateChunkUploadedFallback (some s) i = some s := by
  have hUfin : s.uploaded_chunks.toFinset = Finset.range s.total_chunks := by
    rw [hfull, Finset.sort_toFinset]
  have hG : r.store ∪ s.uploaded_chunks.toFinset ∪ {i}
      = Finset.range s.total_chunks := by
    rw [hUfin, Finset.union_eq_right.mpr hstore,
      Finset.union_eq_left.mpr (Finset.singleton_subset_iff.mpr (Finset.mem_range.mpr hi))]
  constructor
  · rw [updateChunkUploaded_connected s r i hconn]
    simp only [afterState]
    rw [hG, Finset.card_range, if_pos le_rfl]
    exact congrArg some (session_update_self s _ _ hfull.symm hstatus.symm)
  · have hnd : s.uploaded_chunks.Nodup := by
      rw [hfull]
      exact Finset.sort_nodup _ _
    rw [updateChunkUploadedFallback_eq s i hnd]
    have hsub : ({i} : Finset Nat) ⊆ s.uploaded_chunks.toFinset := by
      rw [hUfin]
      exact Finset.singleton_subset_iff.mpr (Finset.mem_range.mpr hi)
    have hcard : (s.uploaded_chunks.toFinset ∪ {i}).card = s.total_chunks := by
      rw [Finset.union_eq_left.mpr hsub, hUfin, Finset.card_range]
    simp only [afterFallback, if_pos hsub, hcard, if_pos rfl]
    exact congrArg some (session_update_self s _ _ rfl hstatus.symm)

/-- Witness for the amended C4 at a concrete input: completed session
with the full set `[0, 1, 2]`, re-delivery of chunk 1. -/
theorem record_chunk_completed_full_session_noop_witness :
    (updateChunkUploaded (some sessionDone) redisUp 1).1 = some sessionDone ∧
    updateChunkUploadedFallback (some sessionDone) 1 = some sessionDone :=
  record_chunk_completed_full_session_noop sessionDone redisUp 1 rfl rfl
    (by rw [Finset.sort_range]; decide) (by decide) (by decide)

/-- C3 counterexample: completion equivalence is NOT an invariant of
every session-writing operation. `assembleFile` on a completed session
with the full received set `[0, 1, 2]` whose chunk 1 blob is missing on
disk throws in the concatenation loop, and its catch handler marks the
session `failed` — leaving a session with `|received| = total_chunks`
in a state other than `completed`. -/
theorem assembleFile_failure_full_set_not_completed :
    (assembleFile (some sessionDone) storeMissing1).sessionAfter
        = some { sessionDone with status := Status.failed } ∧
    sessionDone.uploaded_chunks.length = sessionDone.total_chunks ∧
    Status.failed ≠ Status.completed := by
  decide

/-- C3 amended: completion equivalence is an invariant of `record_chunk`
(both paths) — on a session with in-range, duplicate-free bookkeeping and
an in-range chunk index, the written row satisfies
`state = completed ↔ |received| = total_chunks` — but NOT of assembly
failure handling or `updateStatus`, which overwrite the state without
touching the set (see the counterexample). -/
theorem record_chunk_preserves_completion_equiv (s s' : Session) (r : RedisState)
    (i : Nat) (hconn : r.connected = true)
    (hnd : s.uploaded_chunks.Nodup)
    (hU : ∀ x ∈ s.uploaded_chunks, x < s.total_chunks)
    (hR : ∀ x ∈ r.store, x < s.total_chunks)
    (hi : i < s.total_chunks) :
    ((updateChunkUploaded (some s) r i).1 = some s' →
      (s'.status = Status.completed ↔ s'.uploaded_chunks.length = s'.total_chunks)) ∧
    (updateChunkUploadedFallback (some s) i = some s' →
      (s'.status = Status.completed ↔ s'.uploaded_chunks.length = s'.total_chunks)) := by
  constructor
  · intro h
    rw [updateChunkUploaded_connected s r i hconn] at h
    simp only [afterState, Option.some.injEq] at h
    subst h
    have hGsub : r.store ∪ s.uploaded_chunks.toFinset ∪ {i}
        ⊆ Finset.range s.total_chunks := by
      refine Finset.union_subset (Finset.union_subset ?_ ?_) ?_
      · intro x hx
        exact Finset.mem_range.mpr (hR x hx)
      · intro x hx
        exact Finset.mem_range.mpr (hU x (List.mem_toFinset.mp hx))
      · exact Finset.singleton_subset_iff.mpr (Finset.mem_range.mpr hi)
    have hcard : (r.store ∪ s.uploaded_chunks.toFinset ∪ {i}).card
        ≤ s.total_chunks := by
      have := Finset.card_le_card hGsub
      rwa [Finset.card_range] at this
    simp only [Finset.union_assoc] at hcard
    by_cases hc : s.total_chunks
        ≤ (r.store ∪ (s.uploaded_chunks.toFinset ∪ {i})).card
    · simp [hc, Finset.length_sort]
      omega
    · simp [hc, Finset.length_sort]
      omega
  · intro h
    rw [updateChunkUploadedFallback_eq s i hnd] at h
    simp only [afterFallback, Option.some.injEq] at h
    subst h
    by_cases hsub : ({i} : Finset Nat) ⊆ s.uploaded_chunks.toFinset
    · have hlen : s.uploaded_chunks.length
          = (s.uploaded_chunks.toFinset ∪ {i}).card := by
        rw [Finset.union_eq_left.mpr hsub, List.toFinset_card_of_nodup hnd]
      by_cases hc : (s.uploaded_chunks.toFinset ∪ {i}).card = s.total_chunks <;>
        simp [hsub, hc, hlen]
    · by_cases hc : (s.uploaded_chunks.toFinset ∪ {i}).card = s.total_chunks <;>
        simp [hsub, hc, Finset.length_sort]

/-- Witness for the amended C3 at a concrete input: session with
`received = [0]` of 3 and delivery of chunk 1 on both paths. -/
theorem record_chunk_preserves_completion_equiv_witness :
    ((updateChunkUploaded (some sessionC) redisUp 1).1
        = some { sessionC with uploaded_chunks := [0, 1], status := Status.uploading } →
      (Status.uploading = Status.completed ↔ ([0, 1] : List Nat).length = 3)) ∧
    (updateChunkUploadedFallback (some sessionC) 1
        = some { sessionC with uploaded_chunks := [0, 1], status := Status.uploading } →
      (Status.uploading = Status.completed ↔ ([0, 1] : List Nat).length = 3)) := by
  have h := record_chunk_preserves_completion_equiv sessionC
    { sessionC with uploaded_chunks := [0, 1], status := Status.uploading }
    redisUp 1 rfl (by decide) (by decide) (by decide) (by decide)
  exact h

theorem assembleChunksLoop_success (data : Nat → List Nat) :
    ∀ (l : List Nat) (store : Nat → Option (List Nat)) (acc : List Nat),
      l.Nodup → (∀ i ∈ l, store i = some (data i)) →
      assembleChunksLoop store l acc =
        ((fun j => if j ∈ l then none else store j),
          acc ++ (l.map data).flatten, none) := by
  intro l
  induction l with
  | nil =>
    intro store acc _ _
    simp [assembleChunksLoop]
  | cons i rest ih =>
    intro store acc hnd hall
    have hi : store i = some (data i) := hall i (List.mem_cons_self i rest)
    have hnd' : rest.Nodup := (List.nodup_cons.mp hnd).2
    have hni : i ∉ rest := (List.nodup_cons.mp hnd).1
    have hall' : ∀ j ∈ rest, unlinkChunk store i j = some (data j) := by
      intro j hj
      have hji : j ≠ i := fun hEq => hni (hEq ▸ hj)
      simp [unlinkChunk, hji]
      exact hall j (List.mem_cons_of_mem i hj)
    rw [show assembleChunksLoop store (i :: rest) acc
        = assembleChunksLoop (unlinkChunk store i) rest (acc ++ data i) by
      simp [assembleChunksLoop, hi]]
    rw [ih (unlinkChunk store i) (acc ++ data i) hnd' hall']
    refine congrArg₂ _ ?_ (congrArg₂ _ ?_ rfl)
    · funext j
      by_cases hjr : j ∈ rest
      · simp [hjr, List.mem_cons_of_mem i hjr]
      · by_cases hji : j = i
        · subst hji
          simp [hjr, unlinkChunk]
        · simp [hjr, hji, unlinkChunk]
    · simp [List.append_assoc]

/-- C5. `assembleFile` concatenates the chunk blobs strictly by ascending
index: on a completed session with a full bookkeeping set whose chunk
blobs `chunks/\x7bsid\x7d_chunk_0 … _\x7bN-1\x7d` are all present, the bytes written
to `uploads/\x7bfilename\x7d` are exactly
`data 0 ++ data 1 ++ … ++ data (N-1)` — the flattening of the chunk
contents over `List.range total_chunks` — independent of the order in
which the chunks were uploaded (the store is the only input). -/
theorem assembleFile_concat_ascending (s : Session)
    (store : Nat → Option (List Nat)) (data : Nat → List Nat)
    (hstatus : s.status = Status.completed)
    (hlen : s.uploaded_chunks.length = s.total_chunks)
    (hdata : ∀ i < s.total_chunks, store i = some (data i)) :
    (assembleFile (some s) store).output
        = some (((List.range s.total_chunks).map data).flatten) ∧
    (assembleFile (some s) store).videoCreated = true ∧
    (assembleFile (some s) store).sessionAfter = none := by
  have hloop := assembleChunksLoop_success data (List.range s.total_chunks) store []
    (List.nodup_range s.total_chunks)
    (fun i hi => hdata i (List.mem_range.mp hi))
  simp only [assembleFile, hstatus, if_pos rfl, hlen, hloop]
  exact ⟨rfl, rfl, rfl⟩

/-- Witness for C5: three one-byte chunks assemble to `[10, 11, 12]`. -/
theorem assembleFile_concat_ascending_witness :
    (assembleFile (some sessionDone) (fun i => if i < 3 then some [10 + i] else none)).output
        = some (((List.range sessionDone.total_chunks).map (fun i => [10 + i])).flatten) ∧
    (assembleFile (some sessionDone) (fun i => if i < 3 then some [10 + i] else none)).videoCreated
        = true ∧
    (assembleFile (some sessionDone) (fun i => if i < 3 then some [10 + i] else none)).sessionAfter
        = none :=
  assembleFile_concat_ascending sessionDone
    (fun i => if i < 3 then some [10 + i] else none) (fun i => [10 + i])
    rfl (by decide) (by decide)

theorem assembleChunksLoop_fail (data : Nat → List Nat) (m : Nat) (l₂ : List Nat) :
    ∀ (l₁ : List Nat) (store : Nat → Option (List Nat)) (acc : List Nat),
      l₁.Nodup → (∀ i ∈ l₁, store i = some (data i)) → m ∉ l₁ → store m = none →
      assembleChunksLoop store (l₁ ++ m :: l₂) acc =
        ((fun j => if j ∈ l₁ then none else store j),
          acc ++ (l₁.map data).flatten, some m) := by
  intro l₁
  induction l₁ with
  | nil =>
    intro store acc _ _ _ hmnone
    simp [assembleChunksLoop, hmnone]
  | cons i rest ih =>
    intro store acc hnd hall hm hmnone
    have hi : store i = some (data i) := hall i (List.mem_cons_self i rest)
    have hnd' : rest.Nodup := (List.nodup_cons.mp hnd).2
    have hni : i ∉ rest := (List.nodup_cons.mp hnd).1
    have hmi : m ≠ i := fun hEq => hm (hEq ▸ List.mem_cons_self i rest)
    have hmr : m ∉ rest := fun hr => hm (List.mem_cons_of_mem i hr)
    have hall' : ∀ j ∈ rest, unlinkChunk store i j = some (data j) := by
      intro j hj
      have hji : j ≠ i := fun hEq => hni (hEq ▸ hj)
      simp [unlinkChunk, hji]
      exact hall j (List.mem_cons_of_mem i hj)
    have hmnone' : unlinkChunk store i m = none := by
      simp [unlinkChunk, hmi, hmnone]
    rw [show assembleChunksLoop store ((i :: rest) ++ m :: l₂) acc
        = assembleChunksLoop (unlinkChunk store i) (rest ++ m :: l₂) (acc ++ data i) by
      simp [assembleChunksLoop, hi]]
    rw [ih (unlinkChunk store i) (acc ++ data i) hnd' hall' hmr hmnone']
    refine congrArg₂ _ ?_ (congrArg₂ _ ?_ rfl)
    · funext j
      by_cases hjr : j ∈ rest
      · simp [hjr, List.mem_cons_of_mem i hjr]
      · by_cases hji : j = i
        · subst hji
          simp [hjr, unlinkChunk]
        · simp [hjr, hji, unlinkChunk]
    · simp [List.append_assoc]

theorem range_split (m n : Nat) (h : m < n) :
    List.range n = List.range m ++ m :: List.range' (m + 1) (n - m - 1) := by
  obtain ⟨k, rfl⟩ : ∃ k, n = m + 1 + k := ⟨n - m - 1, by omega⟩
  have h2 : m + 1 + k - m - 1 = k := by omega
  rw [h2, List.range_eq_range', List.range_eq_range',
    show m + 1 + k = k + 1 + m by omega, ← List.range'_append 0 m (k + 1) 1]
  simp [List.range'_succ]

/-- C6 counterexample: an `assembleFile` failure before the video row is
created is NOT atomic. On `sessionDone` (completed, 3 chunks) with chunk
1 missing, the loop reads and UNLINKS chunk 0 before failing on chunk 1:
afterwards the chunk-0 blob is gone (it existed before) and the session
row has been flipped to `failed` — the message is not safely retriable. -/
theorem assembleFile_failure_deletes_prior_chunks :
    (assembleFile (some sessionDone) storeMissing1).chunksAfter 0 = none ∧
    storeMissing1 0 = some [0] ∧
    (assembleFile (some sessionDone) storeMissing1).sessionAfter ≠ some sessionDone ∧
    (assembleFile (some sessionDone) storeMissing1).videoCreated = false := by
  decide

/-- C6 amended: when `assembleFile` fails at the first missing chunk
index `m` (all chunks below `m` present, session completed with a full
count), the post-state is: every chunk blob with index `< m` has been
deleted, every blob with index `≥ m` is untouched, no output is durably
written, no video row is created, and the session row is marked
`failed` — so the failure is only partially rolled back and the message
is not safely retriable. -/
theorem assembleFile_failure_partial_cleanup (s : Session)
    (store : Nat → Option (List Nat)) (data : Nat → List Nat) (m : Nat)
    (hstatus : s.status = Status.completed)
    (hlen : s.uploaded_chunks.length = s.total_chunks)
    (hm : m < s.total_chunks)
    (hmiss : store m = none)
    (hbelow : ∀ i < m, store i = some (data i)) :
    (∀ j < m, (assembleFile (some s) store).chunksAfter j = none) ∧
    (∀ j, m ≤ j → (assembleFile (some s) store).chunksAfter j = store j) ∧
    (assembleFile (some s) store).output = none ∧
    (assembleFile (some s) store).videoCreated = false ∧
    (assembleFile (some s) store).sessionAfter
        = some { s with status := Status.failed } := by
  have hsplit := range_split m s.total_chunks hm
  have hloop := assembleChunksLoop_fail data m
    (List.range' (m + 1) (s.total_chunks - m - 1)) (List.range m) store []
    (List.nodup_range m)
    (fun i hi => hbelow i (List.mem_range.mp hi))
    (by simp [List.mem_range])
    hmiss
  have houtcome : assembleFile (some s) store =
      { sessionAfter := updateStatus (some s) Status.failed
        chunksAfter := fun j => if j ∈ List.range m then none else store j
        output := none
        videoCreated := false } := by
    simp only [assembleFile, hstatus, if_pos rfl, hlen, if_pos rfl, hsplit, hloop,
      if_true]
  rw [houtcome]
  refine ⟨?_, ?_, rfl, rfl, rfl⟩
  · intro j hj
    simp [List.mem_range, hj]
  · intro j hj
    simp [List.mem_range, Nat.not_lt.mpr hj]

/-- Witness for the amended C6 at the concrete failing input of the
counterexample: `sessionDone` with chunk 1 missing, `m = 1`. -/
theorem assembleFile_failure_partial_cleanup_witness :
    (∀ j < 1, (assembleFile (some sessionDone) storeMissing1).chunksAfter j = none) ∧
    (∀ j, 1 ≤ j → (assembleFile (some sessionDone) storeMissing1).chunksAfter j
        = storeMissing1 j) ∧
    (assembleFile (some sessionDone) storeMissing1).output = none ∧
    (assembleFile (some sessionDone) storeMissing1).videoCreated = false ∧
    (assembleFile (some sessionDone) storeMissing1).sessionAfter
        = some { sessionDone with status := Status.failed } :=
  assembleFile_failure_partial_cleanup sessionDone storeMissing1
    (fun i => [i]) 1 rfl (by decide) (by decide) (by decide)
    (by intro i hi; interval_cases i; decide)

/-- C7 counterexample: the retry queues of the chunk and assembly
pipelines feed NOTHING back — no consumer function ever subscribes to
`chunk_processing_retry` or `file_assembly_retry` (only the video
pipeline's `consumeRetryJobs` exists), yet the failure handlers DO
republish failed messages there, so those messages are never
re-executed. -/
theorem chunk_and_assembly_retry_queues_unconsumed :
    "chunk_processing_retry" ∉ (allConsumerRegistrations
      "videoProcessor" "chunkProcessor" "assemblyProcessor").map Prod.fst ∧
    "file_assembly_retry" ∉ (allConsumerRegistrations
      "videoProcessor" "chunkProcessor" "assemblyProcessor").map Prod.fst ∧
    (handleConsumeFailure Pipeline.chunk 0).1 = "chunk_processing_retry" ∧
    (handleConsumeFailure Pipeline.assembly 0).1 = "file_assembly_retry" := by
  decide

/-- C7 amended: every pipeline republishes a message failing with
`retry_count < 3` to its own retry queue with the count incremented, but
only the VIDEO pipeline's retry queue is consumed — by the same processor
as its main queue; the chunk and assembly consumer functions subscribe
their processor to the main queue only, so their retry queues have no
consumer and transiently failed chunk/assembly jobs are never
re-executed. -/
theorem retry_republish_video_feedback (p : Pipeline) (rc : Nat) (proc : String)
    (h : rc < 3) :
    handleConsumeFailure p rc = (retryQueue p, rc + 1) ∧
    (retryQueue Pipeline.video, proc) ∈ consumeVideoJobs proc ∧
    (mainQueue Pipeline.video, proc) ∈ consumeVideoJobs proc ∧
    (retryQueue Pipeline.chunk, proc) ∉ consumeChunkJobs proc ∧
    (retryQueue Pipeline.assembly, proc) ∉ consumeFileAssemblyJobs proc := by
  refine ⟨by simp [handleConsumeFailure, h], ?_, ?_, ?_, ?_⟩
  · simp [consumeVideoJobs, retryQueue]
  · simp [consumeVideoJobs, mainQueue]
  · intro hmem
    simp [consumeChunkJobs, retryQueue] at hmem
  · intro hmem
    simp [consumeFileAssemblyJobs, retryQueue] at hmem

/-- Witness for the amended C7: chunk pipeline, retry count 2. -/
theorem retry_republish_video_feedback_witness :
    handleConsumeFailure Pipeline.chunk 2 = (retryQueue Pipeline.chunk, 3) ∧
    (retryQueue Pipeline.video, "processVideo") ∈ consumeVideoJobs "processVideo" ∧
    (mainQueue Pipeline.video, "processVideo") ∈ consumeVideoJobs "processVideo" ∧
    (retryQueue Pipeline.chunk, "processVideo") ∉ consumeChunkJobs "processVideo" ∧
    (retryQueue Pipeline.assembly, "processVideo") ∉ consumeFileAssemblyJobs "processVideo" :=
  retry_republish_video_feedback Pipeline.chunk 2 "processVideo" (by decide)

/-- C8. Range round-trip: for a stored file of length `L` and a request
`Range: bytes=S-E` with `0 ≤ S ≤ E < L`, the endpoint answers 206 with
`Content-Range: bytes S-E/L`, `Content-Length = E-S+1`, and a body of
exactly `E-S+1` bytes equal byte-for-byte to `file[S..E]`; with `E`
omitted (`bytes=S-`), `E` defaults to `L-1`. -/
theorem stream_range_round_trip (file : List Nat) (s e : Nat)
    (hse : s ≤ e) (hel : e < file.length) :
    (streamEndpoint (some file) (some (s, some e))).status = 206 ∧
    (streamEndpoint (some file) (some (s, some e))).contentRange
        = some ((s : Int), (e : Int), (file.length : Int)) ∧
    (streamEndpoint (some file) (some (s, some e))).contentLength
        = (e : Int) - (s : Int) + 1 ∧
    (streamEndpoint (some file) (some (s, some e))).body.length = e - s + 1 ∧
    (∀ k < e - s + 1,
      (streamEndpoint (some file) (some (s, some e))).body[k]? = file[s + k]?) ∧
    streamEndpoint (some file) (some (s, none))
        = streamEndpoint (some file) (some (s, some (file.length - 1))) := by
  have hnotgt : ¬ ((s : Int) > (e : Int)) := by omega
  refine ⟨?_, ?_, ?_, ?_, ?_, ?_⟩
  · simp only [streamEndpoint, if_neg hnotgt, rangeEndPos]
  · simp only [streamEndpoint, if_neg hnotgt, rangeEndPos]
  · simp only [streamEndpoint, if_neg hnotgt, rangeEndPos]
  · simp only [streamEndpoint, if_neg hnotgt, rangeEndPos, List.length_take,
      List.length_drop]
    omega
  · intro k hk
    simp only [streamEndpoint, if_neg hnotgt, rangeEndPos]
    rw [List.getElem?_take_of_lt (by omega), List.getElem?_drop]
  · have hcast : ((file.length - 1 : Nat) : Int) = (file.length : Int) - 1 := by
      omega
    simp only [streamEndpoint, rangeEndPos, hcast]

/-- Witness for C8: 10-byte file, range 2-5. -/
theorem stream_range_round_trip_witness :
    (streamEndpoint (some [0, 1, 2, 3, 4, 5, 6, 7, 8, 9]) (some (2, some 5))).status = 206 ∧
    (streamEndpoint (some [0, 1, 2, 3, 4, 5, 6, 7, 8, 9]) (some (2, some 5))).contentRange
        = some ((2 : Int), (5 : Int), (10 : Int)) ∧
    (streamEndpoint (some [0, 1, 2, 3, 4, 5, 6, 7, 8, 9]) (some (2, some 5))).contentLength
        = (5 : Int) - (2 : Int) + 1 ∧
    (streamEndpoint (some [0, 1, 2, 3, 4, 5, 6, 7, 8, 9]) (some (2, some 5))).body.length
        = 5 - 2 + 1 ∧
    (∀ k < 5 - 2 + 1,
      (streamEndpoint (some [0, 1, 2, 3, 4, 5, 6, 7, 8, 9]) (some (2, some 5))).body[k]?
        = [0, 1, 2, 3, 4, 5, 6, 7, 8, 9][2 + k]?) ∧
    streamEndpoint (some [0, 1, 2, 3, 4, 5, 6, 7, 8, 9]) (some (2, none))
        = streamEndpoint (some [0, 1, 2, 3, 4, 5, 6, 7, 8, 9])
            (some (2, some ([0, 1, 2, 3, 4, 5, 6, 7, 8, 9].length - 1))) := by
  have h := stream_range_round_trip [0, 1, 2, 3, 4, 5, 6, 7, 8, 9] 2 5
    (by decide) (by decide)
  exact h

/-- C9 counterexample: the `/stream/:filename` handler never returns
416. On a 10-byte file, `bytes=100-200` (start past EOF, start ≤ end) is
answered 206 — the head is written before the stream ends empty — and
`bytes=5-2` (start > end) is answered 500, because `createReadStream`
throws `ERR_OUT_OF_RANGE` synchronously before `writeHead(206)` and
Express's default handler replies 500. Neither is the specified 416. -/
theorem stream_out_of_range_not_416 :
    (streamEndpoint (some [0, 1, 2, 3, 4, 5, 6, 7, 8, 9]) (some (100, some 200))).status
        = 206 ∧
    (streamEndpoint (some [0, 1, 2, 3, 4, 5, 6, 7, 8, 9]) (some (100, some 200))).status
        ≠ 416 ∧
    (streamEndpoint (some [0, 1, 2, 3, 4, 5, 6, 7, 8, 9]) (some (5, some 2))).status
        = 500 ∧
    (streamEndpoint (some [0, 1, 2, 3, 4, 5, 6, 7, 8, 9]) (some (5, some 2))).status
        ≠ 416 := by
  decide

/-- C9 amended: the endpoint never produces 416. For every existing file
and parsed `Range` header, the status is exactly 206 when
`start ≤ end` (including start past EOF, where the body just comes up
empty) and 500 when `start > end` (the synchronous `createReadStream`
throw pre-empts the 206 head and Express answers 500). -/
theorem stream_range_never_416 (file : List Nat) (s : Nat) (e : Option Nat) :
    (streamEndpoint (some file) (some (s, e))).status
        = (if (s : Int) ≤ rangeEndPos file.length e then 206 else 500) ∧
    (streamEndpoint (some file) (some (s, e))).status ≠ 416 := by
  have hchar : (streamEndpoint (some file) (some (s, e))).status
      = (if (s : Int) ≤ rangeEndPos file.length e then 206 else 500) := by
    simp only [streamEndpoint]
    by_cases hc : (s : Int) > rangeEndPos file.length e
    · rw [if_pos hc, if_neg (by omega)]
    · rw [if_neg hc, if_pos (by omega)]
  refine ⟨hchar, ?_⟩
  rw [hchar]
  by_cases hc : (s : Int) ≤ rangeEndPos file.length e
  · simp [hc]
  · simp [hc]

/-- C10. The chunk-upload handler's index validation is not total:
`chunkIndex` is parsed with JavaScript `parseInt`, a non-numeric string
yields NaN, and both guards (`chunkIndexNum < 0` and
`chunkIndexNum >= session.total_chunks`) are false on NaN — so a
non-numeric `chunkIndex` passes validation and a `CommitChunk` job
carrying a NaN index is enqueued on `chunk_processing`. -/
theorem uploadChunk_nan_index_enqueued (s : Session) (ci : String)
    (hnan : parseIntJs ci = JsNum.nan)
    (h1 : s.status ≠ Status.completed) (h2 : s.status ≠ Status.failed) :
    uploadChunk (some s) s.user_id ci = ChunkUploadOutcome.queued JsNum.nan := by
  simp [uploadChunk, h1, h2, hnan, JsNum.lt, JsNum.ge]

/-- Witness for C10: the string "abc" on an uploading session. -/
theorem uploadChunk_nan_index_enqueued_witness :
    uploadChunk (some sessionC) sessionC.user_id "abc"
        = ChunkUploadOutcome.queued JsNum.nan :=
  uploadChunk_nan_index_enqueued sessionC "abc" (by decide) (by decide) (by decide)
